import Mathlib

/-!
Shallow embedding of `runner/runner.go` from the `ecs-run-task` repository.

The file translates, directly from the Go source, the pure logic of the run
orchestrator: Go `path.Base`, the environment resolver
`awsKeyValuePairForEnv`, the per-override resolution step of `Run`
(lines 110-141), the log-stream naming `logStreamName`, the log-watcher
construction with its `Printer` closure (lines 153-185), the finish-marker
writer `writeContainerFinishedMessage` (lines 256-268), the finalizing loop
(lines 212-223) and the exit-code aggregation loop (lines 229-242).

AWS calls, goroutine scheduling and the CloudWatch backend are external;
the log writer is modelled as an injected function from (stream, message)
to success or an error, mirroring `logWriter.WriteString`.
-/

set_option autoImplicit false

namespace EcsRunTask

/-- One container definition of the parsed task definition input; the
override-resolution code reads only its `Name` field (runner.go line 119). -/
structure ContainerDefinition where
  name : String
deriving DecidableEq

/-- Go struct `Override` (runner.go lines 21-24): a target service name and a
replacement command. -/
structure Override where
  service : String
  command : List String
deriving DecidableEq

/-- The fields of `ecs.ContainerOverride` that `Run` fills in
(runner.go lines 132-139): command, container name and environment pairs. -/
structure ContainerOverride where
  command : List String
  name : String
  environment : List (String × String)
deriving DecidableEq

/-- The fields of `ecs.Container` the runner reads: `Name`, `ContainerArn`,
`LastStatus`, `ExitCode` and `Reason`.  `ExitCode` is a pointer in the AWS
SDK, so it is an `Option`; `none` models a nil pointer. -/
structure Container where
  name : String
  containerArn : String
  lastStatus : String
  exitCode : Option Int
  reason : String
deriving DecidableEq

/-- The fields of `ecs.Task` the runner reads: `TaskArn` and `Containers`. -/
structure Task where
  taskArn : String
  containers : List Container
deriving DecidableEq

/-- Go `path.Base`: empty path gives ".", trailing slashes are stripped, the
part after the last remaining "/" is returned, and a path of only slashes
gives "/". -/
def pathBase (p : String) : String :=
  if p = "" then "."
  else
    let noTrail := p.toList.reverse.dropWhile (fun c => c == '/')
    let base := (noTrail.takeWhile (fun c => c != '/')).reverse
    if base.isEmpty then "/" else String.mk base

/-- Go `strings.SplitN(s, "=", 2)` on a character list: the part before the
first `=`, and `some` rest when a `=` occurs (`none` when it does not). -/
def splitFirstEq : List Char → List Char × Option (List Char)
  | [] => ([], none)
  | c :: rest =>
    if c = '=' then ([], some rest)
    else
      let (k, v) := splitFirstEq rest
      (c :: k, v)

/-- Go `awsKeyValuePairForEnv` (runner.go lines 287-310): each entry is split
on the first `=`; an entry without `=` is looked up in the injected
environment and a failed lookup aborts the whole call with a
"missing environment variable" error.  Pairs are returned in entry order. -/
def awsKeyValuePairForEnv (lookupEnv : String → Option String) :
    List String → Except String (List (String × String))
  | [] => .ok []
  | s :: rest =>
    match splitFirstEq s.toList with
    | (kl, some vl) =>
      match awsKeyValuePairForEnv lookupEnv rest with
      | .error e => .error e
      | .ok tl => .ok ((String.mk kl, String.mk vl) :: tl)
    | (kl, none) =>
      match lookupEnv (String.mk kl) with
      | some v2 =>
        match awsKeyValuePairForEnv lookupEnv rest with
        | .error e => .error e
        | .ok tl => .ok ((String.mk kl, v2) :: tl)
      | none => .error ("missing environment variable \x22" ++ String.mk kl ++ "\x22")

/-- The body of the override loop of `Run` (runner.go lines 110-141) for one
`Override`: an override with an empty command is skipped (`ok none`); an
empty service name defaults to the single container definition's name and is
an error when there is not exactly one definition (lines 114-121); then the
environment is resolved (line 127) and the `ecs.ContainerOverride` is built
(lines 132-139). -/
def resolveOneOverride (defs : List ContainerDefinition)
    (lookupEnv : String → Option String) (environment : List String)
    (o : Override) : Except String (Option ContainerOverride) :=
  if 0 < o.command.length then
    let nameRes : Except String String :=
      if o.service = "" then
        match defs with
        | [d] => .ok d.name
        | _ => .error ("No service provided for override and can\x27t determine default service with " ++ toString defs.length ++ " container definitions")
      else .ok o.service
    match nameRes with
    | .error e => .error e
    | .ok nm =>
      match awsKeyValuePairForEnv lookupEnv environment with
      | .error e => .error e
      | .ok pairs => .ok (some ⟨o.command, nm, pairs⟩)
  else .ok none

/-- The whole override loop of `Run` (runner.go lines 110-141): overrides are
processed in order, the first error aborts, and the resolved
`ContainerOverride`s are appended in order.  `Run` reaches the `RunTask`
submission (line 144) only when this returns `ok`. -/
def buildContainerOverrides (defs : List ContainerDefinition)
    (lookupEnv : String → Option String) (environment : List String) :
    List Override → Except String (List ContainerOverride)
  | [] => .ok []
  | o :: rest =>
    match resolveOneOverride defs lookupEnv environment o with
    | .error e => .error e
    | .ok none => buildContainerOverrides defs lookupEnv environment rest
    | .ok (some co) =>
      match buildContainerOverrides defs lookupEnv environment rest with
      | .error e => .error e
      | .ok l => .ok (co :: l)

/-- Go struct `logWriter` as used by `Run` (runner.go lines 214-218): the
log group and stream it appends to.  The CloudWatch client is external. -/
structure logWriter where
  logGroupName : String
  logStreamName : String
deriving DecidableEq

/-- Go struct `logWatcher` as built by `Run` (runner.go lines 156-175): the
log group and stream it reads, plus the short container id captured by its
`Printer` closure (line 155). -/
structure logWatcher where
  logGroupName : String
  logStreamName : String
  containerId : String
deriving DecidableEq

/-- Go `logStreamName` (runner.go lines 247-254):
`"<streamPfx>/<containerName>/<base of task ARN>"`. -/
def logStreamName (logStreamPfx : String) (container : Container) (task : Task) : String :=
  logStreamPfx ++ "/" ++ container.name ++ "/" ++ pathBase task.taskArn

/-- The `Printer` closure of a log watcher (runner.go lines 162-174), bound
to a short container id.  Returns (continue?, printed message): a message
starting with `"Container <id> exited with"` stops the watcher (`false`) and
is not printed; any other message is printed and tailing continues. -/
def printer (containerId : String) (msg : String) : Bool × Option String :=
  let finishedPfx := "Container " ++ containerId ++ " exited with"
  if finishedPfx.toList.isPrefixOf msg.toList then (false, none)
  else (true, some msg)

/-- The watcher-spawning loop of `Run` (runner.go lines 153-185): one
`logWatcher` per container of each task, in enumeration order, reading the
stream `logStreamName streamPfx container task` with the `Printer` bound to
`path.Base(container.ContainerArn)`. -/
def spawnWatchers (logGroupName logStreamPfx : String) (tasks : List Task) : List logWatcher :=
  tasks.flatMap fun task => task.containers.map fun container =>
    { logGroupName := logGroupName
      logStreamName := logStreamName logStreamPfx container task
      containerId := pathBase container.containerArn }

/-- Go `writeContainerFinishedMessage` (runner.go lines 256-268).  `wf`
models `logWriter.WriteString` on the writer's stream.  The result pairs the
list of write attempts `(stream, text)` with the returned error or success:
a container not `STOPPED` is an invariant error; a nil `ExitCode` surfaces
the container's `Reason`; otherwise exactly one entry
`"Container <shortId> exited with <code>"` is written. -/
def writeContainerFinishedMessage (wf : String → String → Except String Unit)
    (w : logWriter) (task : Task) (container : Container) :
    List (String × String) × Except String Unit :=
  if container.lastStatus ≠ "STOPPED" then
    ([], .error ("expected container to be STOPPED, got " ++ container.lastStatus))
  else
    match container.exitCode with
    | none => ([], .error container.reason)
    | some code =>
      let msg := "Container " ++ pathBase container.containerArn ++ " exited with " ++ toString code
      ([(w.logStreamName, msg)], wf w.logStreamName msg)

/-- The inner finalizing loop of `Run` (runner.go lines 213-222) over one
task's containers: build the `logWriter` for each container and invoke
`writeContainerFinishedMessage`; the first error aborts the loop.  Returns
the write attempts in order and the error, if any. -/
def finalizeContainers (wf : String → String → Except String Unit)
    (logGroupName logStreamPfx : String) (task : Task) :
    List Container → List (String × String) × Option String
  | [] => ([], none)
  | container :: rest =>
    let lw : logWriter := ⟨logGroupName, logStreamName logStreamPfx container task⟩
    match writeContainerFinishedMessage wf lw task container with
    | (writes, .error e) => (writes, some e)
    | (writes, .ok _) =>
      let (ws, r) := finalizeContainers wf logGroupName logStreamPfx task rest
      (writes ++ ws, r)

/-- The outer finalizing loop of `Run` (runner.go lines 212-223) over all
described tasks: the first error aborts and is returned to the caller. -/
def finalizeTasks (wf : String → String → Except String Unit)
    (logGroupName logStreamPfx : String) :
    List Task → List (String × String) × Option String
  | [] => ([], none)
  | task :: rest =>
    match finalizeContainers wf logGroupName logStreamPfx task task.containers with
    | (ws, some e) => (ws, some e)
    | (ws, none) =>
      let (ws2, r2) := finalizeTasks wf logGroupName logStreamPfx rest
      (ws ++ ws2, r2)

/-- Go struct `exitError` (runner.go lines 270-277): a wrapped error message
and the exit code. -/
structure exitError where
  msg : String
  exitCode : Int
deriving DecidableEq

/-- Go method `exitError.ExitCode` (runner.go lines 275-277). -/
def exitError.ExitCode (e : exitError) : Int := e.exitCode

/-- The inner exit-code aggregation loop of `Run` (runner.go lines 230-241)
over one task's containers.  `*container.ExitCode` is dereferenced
unconditionally: the outer `none` models a nil-pointer fault, `some none`
means every code was zero, `some (some e)` is the returned `exitError`. -/
def aggregateContainers : List Container → Option (Option exitError)
  | [] => some none
  | container :: rest =>
    match container.exitCode with
    | none => none
    | some code =>
      if code ≠ 0 then
        some (some ⟨"container " ++ container.name ++ " exited with " ++ toString code, code⟩)
      else aggregateContainers rest

/-- The outer exit-code aggregation loop of `Run` (runner.go lines 229-242)
over all described tasks. -/
def aggregateTasks : List Task → Option (Option exitError)
  | [] => some none
  | task :: rest =>
    match aggregateContainers task.containers with
    | none => none
    | some (some e) => some (some e)
    | some none => aggregateTasks rest

/-- All containers of all tasks, in the enumeration order of the nested
loops of `Run`. -/
def allContainers (tasks : List Task) : List Container :=
  tasks.flatMap Task.containers

/-- All (task, container) pairs in the enumeration order of the nested loops
of `Run`. -/
def allPairs (tasks : List Task) : List (Task × Container) :=
  tasks.flatMap fun task => task.containers.map fun container => (task, container)

/-- Observable steps of the tail of `Run` after `DescribeTasks` succeeds: a
finish-marker write attempt (lines 212-223), the `wg.Wait()` join (line 226)
and the exit-code aggregation (lines 229-242). -/
inductive TailEvent where
  | markerWrite (stream : String) (msg : String)
  | joinWait
  | aggregation
deriving DecidableEq

/-- The outcome of the tail of `Run`: `success` is a nil return, `exitErr`
the returned `exitError`, `failure` any other returned error, and `nilFault`
a nil-pointer dereference in the aggregation loop. -/
inductive RunOutcome where
  | success
  | exitErr (e : exitError)
  | failure (msg : String)
  | nilFault
deriving DecidableEq

/-- The tail of `Run` after `DescribeTasks` succeeds (runner.go lines
211-244), with its event trace: the finalizing loop runs first and any
finish-marker failure returns immediately; otherwise the join on all tailers
(line 226) happens, then the aggregation loop decides the result. -/
def runTail (wf : String → String → Except String Unit)
    (logGroupName logStreamPfx : String) (tasks : List Task) :
    List TailEvent × RunOutcome :=
  match finalizeTasks wf logGroupName logStreamPfx tasks with
  | (writes, some e) =>
    (writes.map (fun p => TailEvent.markerWrite p.1 p.2), RunOutcome.failure e)
  | (writes, none) =>
    let trace := writes.map (fun p => TailEvent.markerWrite p.1 p.2) ++
      [TailEvent.joinWait, TailEvent.aggregation]
    match aggregateTasks tasks with
    | none => (trace, RunOutcome.nilFault)
    | some none => (trace, RunOutcome.success)
    | some (some e) => (trace, RunOutcome.exitErr e)

/-! ### Helper lemmas about strings and splitting -/

lemma string_toList_append (a b : String) : (a ++ b).toList = a.toList ++ b.toList := by
  cases a; cases b; rfl

lemma string_mk_toList (s : String) : String.mk s.toList = s := by
  cases s; rfl

lemma string_toList_inj {a b : String} (h : a.toList = b.toList) : a = b := by
  cases a; cases b; exact congrArg String.mk h

lemma toList_mk (l : List Char) : (String.mk l).toList = l := rfl

lemma string_mk_data (s : String) : String.mk s.data = s := by
  cases s; rfl

lemma splitFirstEq_no_eq : ∀ (l : List Char), l.contains '=' = false → splitFirstEq l = (l, none) := by
  intro l hl
  induction l with
  | nil => rfl
  | cons c rest ih =>
    simp only [List.contains_cons, Bool.or_eq_false_iff, beq_eq_false_iff_ne] at hl
    simp [splitFirstEq, Ne.symm hl.1, ih hl.2]

lemma splitFirstEq_key_value : ∀ (k v : List Char), k.contains '=' = false →
    splitFirstEq (k ++ '=' :: v) = (k, some v) := by
  intro k v hk
  induction k with
  | nil => simp [splitFirstEq]
  | cons c rest ih =>
    simp only [List.contains_cons, Bool.or_eq_false_iff, beq_eq_false_iff_ne] at hk
    simp [splitFirstEq, Ne.symm hk.1, ih hk.2]

/-! ### Helper lemmas about the environment resolver -/

lemma awsKVP_cons_eq (lk : String → Option String) (k v : List Char) (rest : List String)
    (hk : k.contains '=' = false) :
    awsKeyValuePairForEnv lk (String.mk (k ++ '=' :: v) :: rest) =
      (awsKeyValuePairForEnv lk rest).map (fun l => (String.mk k, String.mk v) :: l) := by
  have hs : splitFirstEq (k ++ '=' :: v) = (k, some v) := splitFirstEq_key_value k v hk
  cases hres : awsKeyValuePairForEnv lk rest <;>
    simp [awsKeyValuePairForEnv, toList_mk, hs, hres, Except.map]

lemma awsKVP_cons_bare_found (lk : String → Option String) (s hv : String) (rest : List String)
    (hs : s.toList.contains '=' = false) (hlk : lk s = some hv) :
    awsKeyValuePairForEnv lk (s :: rest) =
      (awsKeyValuePairForEnv lk rest).map (fun l => (s, hv) :: l) := by
  have hsp : splitFirstEq s.data = (s.data, none) := splitFirstEq_no_eq _ hs
  cases hres : awsKeyValuePairForEnv lk rest <;>
    simp [awsKeyValuePairForEnv, hsp, string_mk_data, hlk, hres, Except.map]

lemma awsKVP_bare_missing_error (lk : String → Option String) :
    ∀ (ws : List String) (s : String), s ∈ ws → s.toList.contains '=' = false → lk s = none →
    ∃ e, awsKeyValuePairForEnv lk ws = .error e := by
  intro ws
  induction ws with
  | nil => intro s hs; simp at hs
  | cons w rest ih =>
    intro s hs hsplit hlk
    rcases List.mem_cons.mp hs with heq | hmem
    · subst heq
      have hsp : splitFirstEq s.data = (s.data, none) := splitFirstEq_no_eq _ hsplit
      exact ⟨"missing environment variable \x22" ++ s ++ "\x22",
        by simp [awsKeyValuePairForEnv, hsp, string_mk_data, hlk]⟩
    · obtain ⟨e, he⟩ := ih s hmem hsplit hlk
      cases hsp : splitFirstEq w.data with
      | mk kl vo =>
        cases vo with
        | some vl => exact ⟨e, by simp [awsKeyValuePairForEnv, hsp, he]⟩
        | none =>
          cases hlkw : lk (String.mk kl) with
          | some v2 => exact ⟨e, by simp [awsKeyValuePairForEnv, hsp, hlkw, he]⟩
          | none =>
            exact ⟨"missing environment variable \x22" ++ String.mk kl ++ "\x22",
              by simp [awsKeyValuePairForEnv, hsp, hlkw]⟩

lemma awsKVP_lookup_irrelevant (lk lk' : String → Option String) :
    ∀ (ws : List String), (∀ s ∈ ws, ((splitFirstEq s.toList).2).isSome = true) →
    awsKeyValuePairForEnv lk ws = awsKeyValuePairForEnv lk' ws := by
  intro ws
  induction ws with
  | nil => intro _; rfl
  | cons w rest ih =>
    intro h
    have hw : ((splitFirstEq w.data).2).isSome = true := h w (List.mem_cons_self w rest)
    have hrest := ih fun s hs => h s (List.mem_cons_of_mem w hs)
    cases hsp : splitFirstEq w.data with
    | mk kl vo =>
      cases vo with
      | some vl => simp [awsKeyValuePairForEnv, hsp, hrest]
      | none => rw [hsp] at hw; simp at hw

lemma awsKVP_ok_length (lk : String → Option String) :
    ∀ (ws : List String) (l : List (String × String)),
    awsKeyValuePairForEnv lk ws = .ok l → l.length = ws.length := by
  intro ws
  induction ws with
  | nil =>
    intro l h
    simp [awsKeyValuePairForEnv] at h
    simp [← h]
  | cons w rest ih =>
    intro l h
    cases hsp : splitFirstEq w.data with
    | mk kl vo =>
      cases vo with
      | some vl =>
        cases hres : awsKeyValuePairForEnv lk rest with
        | error e => simp [awsKeyValuePairForEnv, hsp, hres] at h
        | ok tl =>
          have hlen := ih tl hres
          simp [awsKeyValuePairForEnv, hsp, hres] at h
          subst h
          simp [hlen]
      | none =>
        cases hlkw : lk (String.mk kl) with
        | some v2 =>
          cases hres : awsKeyValuePairForEnv lk rest with
          | error e => simp [awsKeyValuePairForEnv, hsp, hlkw, hres] at h
          | ok tl =>
            have hlen := ih tl hres
            simp [awsKeyValuePairForEnv, hsp, hlkw, hres] at h
            subst h
            simp [hlen]
        | none => simp [awsKeyValuePairForEnv, hsp, hlkw] at h

lemma awsKVP_error_shape (lk : String → Option String) :
    ∀ (ws : List String) (e : String), awsKeyValuePairForEnv lk ws = .error e →
    ∃ k, e = "missing environment variable \x22" ++ k ++ "\x22" ∧ lk k = none := by
  intro ws
  induction ws with
  | nil => intro e h; simp [awsKeyValuePairForEnv] at h
  | cons w rest ih =>
    intro e h
    cases hsp : splitFirstEq w.data with
    | mk kl vo =>
      cases vo with
      | some vl =>
        cases hres : awsKeyValuePairForEnv lk rest with
        | error e2 =>
          simp [awsKeyValuePairForEnv, hsp, hres] at h
          subst h
          exact ih e2 hres
        | ok tl => simp [awsKeyValuePairForEnv, hsp, hres] at h
      | none =>
        cases hlkw : lk (String.mk kl) with
        | some v2 =>
          cases hres : awsKeyValuePairForEnv lk rest with
          | error e2 =>
            simp [awsKeyValuePairForEnv, hsp, hlkw, hres] at h
            subst h
            exact ih e2 hres
          | ok tl => simp [awsKeyValuePairForEnv, hsp, hlkw, hres] at h
        | none =>
          simp [awsKeyValuePairForEnv, hsp, hlkw] at h
          subst h
          exact ⟨String.mk kl, rfl, hlkw⟩

/-! ### Helper lemmas about override resolution -/

lemma resolveOne_empty_cmd (defs : List ContainerDefinition) (lk : String → Option String)
    (env : List String) (o : Override) (hc : ¬ 0 < o.command.length) :
    resolveOneOverride defs lk env o = .ok none := by
  simp [resolveOneOverride, hc]

lemma resolveOne_ambiguous (defs : List ContainerDefinition) (lk : String → Option String)
    (env : List String) (o : Override) (hc : 0 < o.command.length) (hs : o.service = "")
    (hd : defs.length ≠ 1) :
    resolveOneOverride defs lk env o =
      .error ("No service provided for override and can\x27t determine default service with " ++ toString defs.length ++ " container definitions") := by
  cases defs with
  | nil => simp [resolveOneOverride, hc, hs]
  | cons a t =>
    cases t with
    | nil => simp at hd
    | cons b t2 => simp [resolveOneOverride, hc, hs]

lemma resolveOne_err_env (defs : List ContainerDefinition) (lk : String → Option String)
    (env : List String) (o : Override) (e0 : String) (hc : 0 < o.command.length)
    (hname : o.service ≠ "" ∨ defs.length = 1)
    (henv : awsKeyValuePairForEnv lk env = .error e0) :
    resolveOneOverride defs lk env o = .error e0 := by
  by_cases hs : o.service = ""
  · have hd : defs.length = 1 := hname.resolve_left (by simp [hs])
    obtain ⟨d, rfl⟩ : ∃ d, defs = [d] := by
      cases defs with
      | nil => simp at hd
      | cons a t =>
        cases t with
        | nil => exact ⟨a, rfl⟩
        | cons b t2 => simp at hd
    simp [resolveOneOverride, hc, hs, henv]
  · simp [resolveOneOverride, hc, hs, henv]

lemma resolveOne_ok_explicit (defs : List ContainerDefinition) (lk : String → Option String)
    (env : List String) (o : Override) (pairs : List (String × String))
    (hc : 0 < o.command.length) (hs : o.service ≠ "")
    (henv : awsKeyValuePairForEnv lk env = .ok pairs) :
    resolveOneOverride defs lk env o = .ok (some ⟨o.command, o.service, pairs⟩) := by
  simp [resolveOneOverride, hc, hs, henv]

lemma resolveOne_ok_default (d : ContainerDefinition) (lk : String → Option String)
    (env : List String) (o : Override) (pairs : List (String × String))
    (hc : 0 < o.command.length) (hs : o.service = "")
    (henv : awsKeyValuePairForEnv lk env = .ok pairs) :
    resolveOneOverride [d] lk env o = .ok (some ⟨o.command, d.name, pairs⟩) := by
  simp [resolveOneOverride, hc, hs, henv]

lemma buildCO_env_error_exists (defs : List ContainerDefinition) (lk : String → Option String)
    (env : List String) (e0 : String) (henv : awsKeyValuePairForEnv lk env = .error e0) :
    ∀ (ovs : List Override), (∃ o, o ∈ ovs ∧ 0 < o.command.length) →
    ∃ e, buildContainerOverrides defs lk env ovs = .error e := by
  intro ovs
  induction ovs with
  | nil => rintro ⟨o, ho, _⟩; simp at ho
  | cons o' rest ih =>
    rintro ⟨o, ho, hc⟩
    cases hro : resolveOneOverride defs lk env o' with
    | error e => exact ⟨e, by rw [buildContainerOverrides, hro]⟩
    | ok oo =>
      have hrest : ∃ o, o ∈ rest ∧ 0 < o.command.length := by
        rcases List.mem_cons.mp ho with heq | hmem
        · subst heq
          by_cases hs : o.service = ""
          · by_cases hd : defs.length = 1
            · exact absurd hro (by rw [resolveOne_err_env defs lk env o e0 hc (Or.inr hd) henv]; simp)
            · exact absurd hro (by rw [resolveOne_ambiguous defs lk env o hc hs hd]; simp)
          · exact absurd hro (by rw [resolveOne_err_env defs lk env o e0 hc (Or.inl hs) henv]; simp)
        · exact ⟨o, hmem, hc⟩
      obtain ⟨e, he⟩ := ih hrest
      cases oo with
      | none => exact ⟨e, by rw [buildContainerOverrides, hro, he]⟩
      | some co => exact ⟨e, by rw [buildContainerOverrides, hro, he]⟩

lemma buildCO_env_error_exact (defs : List ContainerDefinition) (lk : String → Option String)
    (env : List String) (e0 : String) (henv : awsKeyValuePairForEnv lk env = .error e0) :
    ∀ (ovs : List Override), (∃ o, o ∈ ovs ∧ 0 < o.command.length) →
    (∀ o, o ∈ ovs → 0 < o.command.length → (o.service ≠ "" ∨ defs.length = 1)) →
    buildContainerOverrides defs lk env ovs = .error e0 := by
  intro ovs
  induction ovs with
  | nil => rintro ⟨o, ho, _⟩; simp at ho
  | cons o' rest ih =>
    rintro ⟨o, ho, hc⟩ hall
    by_cases hc' : 0 < o'.command.length
    · have hname := hall o' (List.mem_cons_self o' rest) hc'
      rw [buildContainerOverrides, resolveOne_err_env defs lk env o' e0 hc' hname henv]
    · have hmem : o ∈ rest := by
        rcases List.mem_cons.mp ho with heq | hmem
        · subst heq; exact absurd hc hc'
        · exact hmem
      rw [buildContainerOverrides, resolveOne_empty_cmd defs lk env o' hc']
      exact ih ⟨o, hmem, hc⟩ fun x hx => hall x (List.mem_cons_of_mem o' hx)

/-! ### Claims C5 and C6: the environment resolver -/

/-- C5: `awsKeyValuePairForEnv` (1) never consults the host-environment
lookup when every entry contains `=` (the result is the same for any two
lookups), (2) maps an entry `K=V` to the pair `(K, V)` split on the first
`=`, (3) maps a bare entry `K` found by the lookup to `(K, hostValue)`,
(4) fails the whole call when a bare entry is not found by the lookup, and
(5) preserves entry order and count (one output pair per entry, no
deduplication). -/
theorem c5_awsKeyValuePairForEnv_contract :
    (∀ (lk lk' : String → Option String) (ws : List String),
      (∀ s ∈ ws, ((splitFirstEq s.toList).2).isSome = true) →
      awsKeyValuePairForEnv lk ws = awsKeyValuePairForEnv lk' ws)
    ∧ (∀ (lk : String → Option String) (k v : List Char) (rest : List String),
      k.contains '=' = false →
      awsKeyValuePairForEnv lk (String.mk (k ++ '=' :: v) :: rest) =
        (awsKeyValuePairForEnv lk rest).map (fun l => (String.mk k, String.mk v) :: l))
    ∧ (∀ (lk : String → Option String) (s hv : String) (rest : List String),
      s.toList.contains '=' = false → lk s = some hv →
      awsKeyValuePairForEnv lk (s :: rest) =
        (awsKeyValuePairForEnv lk rest).map (fun l => (s, hv) :: l))
    ∧ (∀ (lk : String → Option String) (ws : List String) (s : String),
      s ∈ ws → s.toList.contains '=' = false → lk s = none →
      ∃ e, awsKeyValuePairForEnv lk ws = .error e)
    ∧ (∀ (lk : String → Option String) (ws : List String) (l : List (String × String)),
      awsKeyValuePairForEnv lk ws = .ok l → l.length = ws.length) :=
  ⟨awsKVP_lookup_irrelevant, awsKVP_cons_eq, awsKVP_cons_bare_found,
   awsKVP_bare_missing_error, awsKVP_ok_length⟩

/-- Witness for C5: a bare `HOME` entry found by the lookup resolves to the
host value. -/
theorem c5_awsKeyValuePairForEnv_contract_witness :
    awsKeyValuePairForEnv (fun k => if k = "HOME" then some "/home" else none) ["HOME"] =
      (awsKeyValuePairForEnv (fun k => if k = "HOME" then some "/home" else none) []).map
        (fun l => ("HOME", "/home") :: l) :=
  c5_awsKeyValuePairForEnv_contract.2.2.1 _ "HOME" "/home" [] (by decide) (by simp)

/-- C6 counterexample: a run whose environment list holds the bare entry
`MISSING`, absent from the host environment, but which declares no override
at all, does not fail: the override loop succeeds (with no overrides) and
`Run` proceeds to submit the job, because `awsKeyValuePairForEnv` is only
invoked inside the override loop for overrides with a non-empty command. -/
theorem c6_counterexample :
    ("MISSING".toList.contains '=' = false)
    ∧ ((fun (_ : String) => (none : Option String)) "MISSING" = none)
    ∧ buildContainerOverrides [⟨"app"⟩] (fun _ => none) ["MISSING"] [] = .ok [] :=
  ⟨by decide, rfl, rfl⟩

/-- C6 (amended): if the environment override list contains a bare entry not
found by the host-environment lookup AND at least one override with a
non-empty command is declared, the override loop fails before the job is
submitted; when moreover every override with a non-empty command can resolve
its target (explicit service, or exactly one container definition), the
error is precisely the "missing environment variable" error. -/
theorem c6_bare_missing_env :
    ∀ (defs : List ContainerDefinition) (lk : String → Option String)
      (env : List String) (ovs : List Override) (s : String),
    s ∈ env → s.toList.contains '=' = false → lk s = none →
    (∃ o, o ∈ ovs ∧ 0 < o.command.length) →
    (∃ e, buildContainerOverrides defs lk env ovs = .error e)
    ∧ ((∀ o, o ∈ ovs → 0 < o.command.length → (o.service ≠ "" ∨ defs.length = 1)) →
      ∃ k, buildContainerOverrides defs lk env ovs =
          .error ("missing environment variable \x22" ++ k ++ "\x22") ∧ lk k = none) := by
  intro defs lk env ovs s hmem hsplit hlk hex
  obtain ⟨e0, henv⟩ := awsKVP_bare_missing_error lk env s hmem hsplit hlk
  refine ⟨buildCO_env_error_exists defs lk env e0 henv ovs hex, ?_⟩
  intro hall
  obtain ⟨k, hk, hklk⟩ := awsKVP_error_shape lk env e0 henv
  exact ⟨k, by rw [buildCO_env_error_exact defs lk env e0 henv ovs hex hall, hk], hklk⟩

/-- Witness for the amended C6: one container definition, one override with
command `./run` and no explicit target, environment list `["MISSING"]`,
empty host environment. -/
theorem c6_bare_missing_env_witness :
    ∃ k, buildContainerOverrides [⟨"app"⟩] (fun _ => none) ["MISSING"] [⟨"", ["./run"]⟩] =
        .error ("missing environment variable \x22" ++ k ++ "\x22")
      ∧ (fun (_ : String) => (none : Option String)) k = none :=
  (c6_bare_missing_env [⟨"app"⟩] (fun _ => none) ["MISSING"] [⟨"", ["./run"]⟩] "MISSING"
    (by simp) (by decide) rfl ⟨⟨"", ["./run"]⟩, by simp, by decide⟩).2
    (fun o _ _ => Or.inr rfl)

lemma buildCO_ambiguous_error (defs : List ContainerDefinition) (lk : String → Option String)
    (env : List String) (hd : defs.length ≠ 1) :
    ∀ (ovs : List Override), (∃ o, o ∈ ovs ∧ 0 < o.command.length ∧ o.service = "") →
    ∃ e, buildContainerOverrides defs lk env ovs = .error e := by
  intro ovs
  induction ovs with
  | nil => rintro ⟨o, ho, _⟩; simp at ho
  | cons o' rest ih =>
    rintro ⟨o, ho, hc, hs⟩
    cases hro : resolveOneOverride defs lk env o' with
    | error e => exact ⟨e, by rw [buildContainerOverrides, hro]⟩
    | ok oo =>
      have hmem : o ∈ rest := by
        rcases List.mem_cons.mp ho with heq | hmem
        · subst heq
          exact absurd hro (by rw [resolveOne_ambiguous defs lk env o hc hs hd]; simp)
        · exact hmem
      obtain ⟨e, he⟩ := ih ⟨o, hmem, hc, hs⟩
      cases oo with
      | none => exact ⟨e, by rw [buildContainerOverrides, hro, he]⟩
      | some co => exact ⟨e, by rw [buildContainerOverrides, hro, he]⟩

lemma resolveOne_defs_irrelevant (defs defs' : List ContainerDefinition)
    (lk : String → Option String) (env : List String) (o : Override)
    (hs : o.service ≠ "") :
    resolveOneOverride defs lk env o = resolveOneOverride defs' lk env o := by
  by_cases hc : 0 < o.command.length
  · simp [resolveOneOverride, hc, hs]
  · simp [resolveOneOverride, hc]

lemma buildCO_defs_irrelevant (defs defs' : List ContainerDefinition)
    (lk : String → Option String) (env : List String) :
    ∀ (ovs : List Override), (∀ o ∈ ovs, o.service ≠ "") →
    buildContainerOverrides defs lk env ovs = buildContainerOverrides defs' lk env ovs := by
  intro ovs
  induction ovs with
  | nil => intro _; rfl
  | cons o' rest ih =>
    intro h
    have h1 := resolveOne_defs_irrelevant defs defs' lk env o' (h o' (List.mem_cons_self o' rest))
    have h2 := ih fun x hx => h x (List.mem_cons_of_mem o' hx)
    rw [buildContainerOverrides, buildContainerOverrides, h1, h2]

/-! ### Claims C4 and C9: override target resolution -/

/-- C4: an override with a non-empty command and no explicit target (1) is
resolved to the sole container definition's name when there is exactly one
definition, (2) resolves to the ambiguity error naming the definition count
when there is more than one definition, and (3) in that case the whole
override loop fails, so `Run` returns before the job is submitted
(`RunTask` at runner.go line 144 is only reached on `ok`). -/
theorem c4_default_override_target :
    (∀ (d : ContainerDefinition) (lk : String → Option String) (env : List String)
      (o : Override) (pairs : List (String × String)),
      o.service = "" → 0 < o.command.length → awsKeyValuePairForEnv lk env = .ok pairs →
      resolveOneOverride [d] lk env o = .ok (some ⟨o.command, d.name, pairs⟩))
    ∧ (∀ (defs : List ContainerDefinition) (lk : String → Option String) (env : List String)
      (o : Override), 2 ≤ defs.length → 0 < o.command.length → o.service = "" →
      resolveOneOverride defs lk env o =
        .error ("No service provided for override and can\x27t determine default service with " ++ toString defs.length ++ " container definitions"))
    ∧ (∀ (defs : List ContainerDefinition) (lk : String → Option String) (env : List String)
      (ovs : List Override), 2 ≤ defs.length →
      (∃ o, o ∈ ovs ∧ 0 < o.command.length ∧ o.service = "") →
      ∃ e, buildContainerOverrides defs lk env ovs = .error e) := by
  refine ⟨?_, ?_, ?_⟩
  · intro d lk env o pairs hs hc henv
    exact resolveOne_ok_default d lk env o pairs hc hs henv
  · intro defs lk env o h2 hc hs
    exact resolveOne_ambiguous defs lk env o hc hs (by omega)
  · intro defs lk env ovs h2 hex
    exact buildCO_ambiguous_error defs lk env (by omega) ovs hex

/-- Witness for C4: with two container definitions, an override with command
`./x` and no target resolves to the ambiguity error. -/
theorem c4_default_override_target_witness :
    resolveOneOverride [⟨"a"⟩, ⟨"b"⟩] (fun _ => none) [] ⟨"", ["./x"]⟩ =
      .error ("No service provided for override and can\x27t determine default service with " ++ toString ([⟨"a"⟩, ⟨"b"⟩] : List ContainerDefinition).length ++ " container definitions") :=
  c4_default_override_target.2.1 [⟨"a"⟩, ⟨"b"⟩] (fun _ => none) [] ⟨"", ["./x"]⟩
    (by decide) (by decide) rfl

/-- C9: resolving an override with an explicit target never consults the
container-definition list: for any two definition lists the per-override
resolution result is identical, and the whole override loop is identical
when every override names its target explicitly. -/
theorem c9_explicit_target_ignores_defs :
    (∀ (defs defs' : List ContainerDefinition) (lk : String → Option String)
      (env : List String) (o : Override), o.service ≠ "" →
      resolveOneOverride defs lk env o = resolveOneOverride defs' lk env o)
    ∧ (∀ (defs defs' : List ContainerDefinition) (lk : String → Option String)
      (env : List String) (ovs : List Override), (∀ o ∈ ovs, o.service ≠ "") →
      buildContainerOverrides defs lk env ovs = buildContainerOverrides defs' lk env ovs) :=
  ⟨resolveOne_defs_irrelevant, buildCO_defs_irrelevant⟩

/-- Witness for C9: one definition versus two definitions, explicit target
`web`: same resolution. -/
theorem c9_explicit_target_ignores_defs_witness :
    resolveOneOverride [⟨"a"⟩] (fun _ => none) [] ⟨"web", ["./x"]⟩ =
      resolveOneOverride [⟨"a"⟩, ⟨"b"⟩] (fun _ => none) [] ⟨"web", ["./x"]⟩ :=
  c9_explicit_target_ignores_defs.1 [⟨"a"⟩] [⟨"a"⟩, ⟨"b"⟩] (fun _ => none) []
    ⟨"web", ["./x"]⟩ (by decide)

/-! ### Helper lemmas about exit-code aggregation -/

lemma aggregateContainers_append (l1 l2 : List Container) :
    aggregateContainers (l1 ++ l2) =
      match aggregateContainers l1 with
      | none => none
      | some (some e) => some (some e)
      | some none => aggregateContainers l2 := by
  induction l1 with
  | nil => simp [aggregateContainers]
  | cons c r ih =>
    cases hec : c.exitCode with
    | none => simp [aggregateContainers, hec]
    | some code =>
      by_cases hz : code = 0
      · simp [aggregateContainers, hec, hz, ih]
      · simp [aggregateContainers, hec, hz]

lemma aggregateTasks_eq_flat (tasks : List Task) :
    aggregateTasks tasks = aggregateContainers (allContainers tasks) := by
  induction tasks with
  | nil => rfl
  | cons t r ih =>
    have hflat : allContainers (t :: r) = t.containers ++ allContainers r := by
      simp [allContainers]
    rw [aggregateTasks, hflat, aggregateContainers_append, ih]

lemma aggregateContainers_first_nonzero :
    ∀ (l : List Container), (∀ c ∈ l, c.exitCode.isSome = true) →
    (∀ c, l.find? (fun x => !(x.exitCode == some 0)) = some c →
      ∃ code, c.exitCode = some code ∧ code ≠ 0 ∧
        aggregateContainers l =
          some (some ⟨"container " ++ c.name ++ " exited with " ++ toString code, code⟩))
    ∧ (l.find? (fun x => !(x.exitCode == some 0)) = none →
      aggregateContainers l = some none) := by
  intro l
  induction l with
  | nil =>
    intro _
    refine ⟨?_, fun _ => rfl⟩
    intro c hc
    simp at hc
  | cons x r ih =>
    intro h
    obtain ⟨k, hk⟩ := Option.isSome_iff_exists.mp (h x (List.mem_cons_self x r))
    have ihr := ih fun c hc => h c (List.mem_cons_of_mem x hc)
    by_cases hz : k = 0
    · subst hz
      have hpred : ¬ (fun y => !(y.exitCode == some 0)) x = true := by simp [hk]
      have hfind := @List.find?_cons_of_neg Container (fun y => !(y.exitCode == some 0)) x r hpred
      constructor
      · intro c hc
        rw [hfind] at hc
        obtain ⟨code, h1, h2, h3⟩ := ihr.1 c hc
        exact ⟨code, h1, h2, by simp [aggregateContainers, hk, h3]⟩
      · intro hc
        rw [hfind] at hc
        simp [aggregateContainers, hk, ihr.2 hc]
    · have hpred : (fun y => !(y.exitCode == some 0)) x = true := by simp [hk, hz]
      have hfind := @List.find?_cons_of_pos Container (fun y => !(y.exitCode == some 0)) x r hpred
      constructor
      · intro c hc
        rw [hfind] at hc
        obtain rfl : x = c := by simpa using hc
        exact ⟨k, hk, hz, by simp [aggregateContainers, hk, hz]⟩
      · intro hc
        rw [hfind] at hc
        simp at hc

/-! ### Claims C1 and C10: exit-code aggregation -/

/-- C1: when every container seen by the aggregation loop has an exit code,
the loop returns the `exitError` built from the first container (in the
nested enumeration order) whose exit code is non-zero, and that error's
`ExitCode()` is that container's own code; when every exit code is zero the
loop falls through and `Run` returns nil (modelled as `some none`). -/
theorem c1_exit_code_aggregation :
    ∀ (tasks : List Task), (∀ c ∈ allContainers tasks, c.exitCode.isSome = true) →
    (∀ c, (allContainers tasks).find? (fun x => !(x.exitCode == some 0)) = some c →
      ∃ code, c.exitCode = some code ∧ code ≠ 0 ∧
        aggregateTasks tasks =
          some (some ⟨"container " ++ c.name ++ " exited with " ++ toString code, code⟩) ∧
        exitError.ExitCode ⟨"container " ++ c.name ++ " exited with " ++ toString code, code⟩ = code)
    ∧ ((allContainers tasks).find? (fun x => !(x.exitCode == some 0)) = none →
      aggregateTasks tasks = some none) := by
  intro tasks h
  have hs := aggregateContainers_first_nonzero (allContainers tasks) h
  rw [aggregateTasks_eq_flat]
  refine ⟨?_, hs.2⟩
  intro c hc
  obtain ⟨code, h1, h2, h3⟩ := hs.1 c hc
  exact ⟨code, h1, h2, h3, rfl⟩

/-- Witness for C1: containers with exit codes `[0, 0, 5, 0]` aggregate to
the `exitError` for the third container, code 5, even though a later
container also stopped. -/
theorem c1_exit_code_aggregation_witness :
    aggregateTasks [⟨"arn:/task/t1",
      [⟨"c0", "a0", "STOPPED", some 0, ""⟩, ⟨"c1", "a1", "STOPPED", some 0, ""⟩,
       ⟨"c2", "a2", "STOPPED", some 5, ""⟩, ⟨"c3", "a3", "STOPPED", some 0, ""⟩]⟩] =
      some (some ⟨"container " ++ "c2" ++ " exited with " ++ toString (5 : Int), 5⟩) := by
  obtain ⟨code, hcode, hnz, hagg, hexit⟩ :=
    (c1_exit_code_aggregation [⟨"arn:/task/t1",
      [⟨"c0", "a0", "STOPPED", some 0, ""⟩, ⟨"c1", "a1", "STOPPED", some 0, ""⟩,
       ⟨"c2", "a2", "STOPPED", some 5, ""⟩, ⟨"c3", "a3", "STOPPED", some 0, ""⟩]⟩]
      (by decide)).1 ⟨"c2", "a2", "STOPPED", some 5, ""⟩ (by decide)
  obtain rfl : (5 : Int) = code := by simpa using hcode
  exact hagg

/-! ### Helper lemmas: finalizing guards the aggregation dereference -/

lemma finalizeContainers_error_of_none (wf : String → String → Except String Unit)
    (g p : String) (task : Task) :
    ∀ (l : List Container) (c : Container), c ∈ l → c.exitCode = none →
    ((finalizeContainers wf g p task l).2).isSome = true := by
  intro l
  induction l with
  | nil => intro c hc; simp at hc
  | cons x r ih =>
    intro c hc hnone
    rcases List.mem_cons.mp hc with heq | hmem
    · subst heq
      by_cases hst : c.lastStatus = "STOPPED"
      · have hw : writeContainerFinishedMessage wf ⟨g, logStreamName p c task⟩ task c =
            ([], .error c.reason) := by
          simp [writeContainerFinishedMessage, hst, hnone]
        simp [finalizeContainers, hw]
      · have hw : writeContainerFinishedMessage wf ⟨g, logStreamName p c task⟩ task c =
            ([], .error ("expected container to be STOPPED, got " ++ c.lastStatus)) := by
          simp [writeContainerFinishedMessage, hst]
        simp [finalizeContainers, hw]
    · cases hw : writeContainerFinishedMessage wf ⟨g, logStreamName p x task⟩ task x with
      | mk writes res =>
        cases res with
        | error e => simp [finalizeContainers, hw]
        | ok u => simp [finalizeContainers, hw, ih c hmem hnone]

lemma finalizeTasks_error_of_none (wf : String → String → Except String Unit) (g p : String) :
    ∀ (tasks : List Task) (c : Container), c ∈ allContainers tasks → c.exitCode = none →
    ((finalizeTasks wf g p tasks).2).isSome = true := by
  intro tasks
  induction tasks with
  | nil => intro c hc; simp [allContainers] at hc
  | cons t r ih =>
    intro c hc hnone
    have hsplit : c ∈ t.containers ∨ c ∈ allContainers r := by
      simpa [allContainers] using hc
    cases hfc : finalizeContainers wf g p t t.containers with
    | mk ws res =>
      cases res with
      | some e => simp [finalizeTasks, hfc]
      | none =>
        rcases hsplit with hin | hin
        · have hcontra := finalizeContainers_error_of_none wf g p t t.containers c hin hnone
          rw [hfc] at hcontra
          simp at hcontra
        · simp [finalizeTasks, hfc, ih c hin hnone]

lemma aggregateContainers_ne_none (l : List Container)
    (h : ∀ c ∈ l, c.exitCode.isSome = true) : aggregateContainers l ≠ none := by
  induction l with
  | nil => simp [aggregateContainers]
  | cons x r ih =>
    obtain ⟨k, hk⟩ := Option.isSome_iff_exists.mp (h x (List.mem_cons_self x r))
    by_cases hz : k = 0
    · subst hz
      simpa [aggregateContainers, hk] using ih fun c hc => h c (List.mem_cons_of_mem x hc)
    · simp [aggregateContainers, hk, hz]

/-- C10: the unconditional `*container.ExitCode` dereference in the
aggregation loop is safe in every execution that reaches it: if the
finalizing loop over the same `DescribeTasks` output returned no error, then
every container's exit code is present (the finalizing loop errors on any
nil exit code), so the aggregation loop never hits the nil-dereference case
(`aggregateTasks ≠ none`). -/
theorem c10_aggregation_null_safe :
    ∀ (wf : String → String → Except String Unit) (g p : String) (tasks : List Task),
    (finalizeTasks wf g p tasks).2 = none →
    (∀ c ∈ allContainers tasks, c.exitCode.isSome = true) ∧ aggregateTasks tasks ≠ none := by
  intro wf g p tasks hfin
  have hall : ∀ c ∈ allContainers tasks, c.exitCode.isSome = true := by
    intro c hc
    by_contra hns
    have hnone : c.exitCode = none := by
      cases hec : c.exitCode with
      | none => rfl
      | some k => rw [hec] at hns; simp at hns
    have hcontra := finalizeTasks_error_of_none wf g p tasks c hc hnone
    rw [hfin] at hcontra
    simp at hcontra
  refine ⟨hall, ?_⟩
  rw [aggregateTasks_eq_flat]
  exact aggregateContainers_ne_none _ hall

/-- Witness for C10: a run whose single container stopped with exit code 0
finalizes without error, and its aggregation does not fault. -/
theorem c10_aggregation_null_safe_witness :
    aggregateTasks [⟨"arn:/task/t1", [⟨"web", "arn:/container/c1", "STOPPED", some 0, ""⟩]⟩] ≠
      none :=
  (c10_aggregation_null_safe (fun _ _ => .ok ()) "g" "p"
    [⟨"arn:/task/t1", [⟨"web", "arn:/container/c1", "STOPPED", some 0, ""⟩]⟩] rfl).2

/-! ### Claim C3: the finish-marker writer -/

/-- C3: `writeContainerFinishedMessage` (1) errors when the container is not
`STOPPED`, (2) surfaces the container's stop reason verbatim as the error,
writing nothing, when the exit code is absent, (3) otherwise attempts
exactly one log entry `"Container <shortId> exited with <code>"` on the
writer's stream, and (4) during the finalizing loop a container with no exit
code is fatal to the run (the loop's error result is set). -/
theorem c3_writeContainerFinishedMessage_contract :
    ∀ (wf : String → String → Except String Unit) (w : logWriter) (task : Task)
      (container : Container),
    (container.lastStatus ≠ "STOPPED" →
      writeContainerFinishedMessage wf w task container =
        ([], .error ("expected container to be STOPPED, got " ++ container.lastStatus)))
    ∧ (container.lastStatus = "STOPPED" → container.exitCode = none →
      writeContainerFinishedMessage wf w task container = ([], .error container.reason))
    ∧ (∀ code, container.lastStatus = "STOPPED" → container.exitCode = some code →
      (writeContainerFinishedMessage wf w task container).1 =
        [(w.logStreamName,
          "Container " ++ pathBase container.containerArn ++ " exited with " ++ toString code)])
    ∧ (∀ (g p : String) (tasks : List Task), container ∈ allContainers tasks →
      container.exitCode = none → ((finalizeTasks wf g p tasks).2).isSome = true) := by
  intro wf w task container
  refine ⟨?_, ?_, ?_, ?_⟩
  · intro hst
    simp [writeContainerFinishedMessage, hst]
  · intro hst hnone
    simp [writeContainerFinishedMessage, hst, hnone]
  · intro code hst hcode
    simp [writeContainerFinishedMessage, hst, hcode]
  · intro g p tasks hmem hnone
    exact finalizeTasks_error_of_none wf g p tasks container hmem hnone

/-- Witness for C3: a container still `RUNNING` makes the writer fail with
the invariant error. -/
theorem c3_writeContainerFinishedMessage_contract_witness :
    writeContainerFinishedMessage (fun _ _ => .ok ()) ⟨"g", "s"⟩ ⟨"t", []⟩
        ⟨"web", "a", "RUNNING", none, "r"⟩ =
      ([], .error ("expected container to be STOPPED, got " ++ "RUNNING")) :=
  (c3_writeContainerFinishedMessage_contract (fun _ _ => .ok ()) ⟨"g", "s"⟩ ⟨"t", []⟩
    ⟨"web", "a", "RUNNING", none, "r"⟩).1 (by decide)

/-! ### Helper lemmas about stream naming -/

lemma spawnWatchers_streams (g p : String) (tasks : List Task) :
    (spawnWatchers g p tasks).map logWatcher.logStreamName =
      (allPairs tasks).map (fun tc => logStreamName p tc.2 tc.1) := by
  simp [spawnWatchers, allPairs, List.map_flatMap, List.map_map]
  rfl

lemma wcfm_ok_writes (wf : String → String → Except String Unit) (w : logWriter)
    (task : Task) (c : Container) (u : Unit)
    (h : (writeContainerFinishedMessage wf w task c).2 = .ok u) :
    ((writeContainerFinishedMessage wf w task c).1).map Prod.fst = [w.logStreamName] := by
  by_cases hst : c.lastStatus = "STOPPED"
  · cases hcode : c.exitCode with
    | none => simp [writeContainerFinishedMessage, hst, hcode] at h
    | some code => simp [writeContainerFinishedMessage, hst, hcode]
  · simp [writeContainerFinishedMessage, hst] at h

lemma finalizeContainers_none_streams (wf : String → String → Except String Unit)
    (g p : String) (task : Task) :
    ∀ (l : List Container), (finalizeContainers wf g p task l).2 = none →
    ((finalizeContainers wf g p task l).1).map Prod.fst =
      l.map (fun c => logStreamName p c task) := by
  intro l
  induction l with
  | nil => intro _; rfl
  | cons x r ih =>
    intro h
    cases hw : writeContainerFinishedMessage wf ⟨g, logStreamName p x task⟩ task x with
    | mk writes res =>
      cases res with
      | error e => simp [finalizeContainers, hw] at h
      | ok u =>
        have hw1 : writes.map Prod.fst = [logStreamName p x task] := by
          have hx := wcfm_ok_writes wf ⟨g, logStreamName p x task⟩ task x u (by rw [hw])
          rw [hw] at hx
          exact hx
        have h2 : (finalizeContainers wf g p task r).2 = none := by
          simp [finalizeContainers, hw] at h
          exact h
        simp [finalizeContainers, hw, hw1, ih h2]

lemma finalizeTasks_none_streams (wf : String → String → Except String Unit) (g p : String) :
    ∀ (tasks : List Task), (finalizeTasks wf g p tasks).2 = none →
    ((finalizeTasks wf g p tasks).1).map Prod.fst =
      (allPairs tasks).map (fun tc => logStreamName p tc.2 tc.1) := by
  intro tasks
  induction tasks with
  | nil => intro _; rfl
  | cons t r ih =>
    intro h
    cases hfc : finalizeContainers wf g p t t.containers with
    | mk ws res =>
      cases res with
      | some e => simp [finalizeTasks, hfc] at h
      | none =>
        have h2 : (finalizeTasks wf g p r).2 = none := by
          simp [finalizeTasks, hfc] at h
          exact h
        have hw1 := finalizeContainers_none_streams wf g p t t.containers (by rw [hfc])
        rw [hfc] at hw1
        simp [finalizeTasks, hfc, allPairs, hw1, ih h2, List.map_map, Function.comp]

/-! ### Claim C7: the log stream reference -/

/-- C7: the log stream reference is the deterministic string
`prefix/containerName/taskIdBase` with `taskIdBase = path.Base(taskArn)`;
the spawned tailers read exactly those streams (one per task/container pair,
in order), and on a finalizing pass that succeeds the finish-marker writers
wrote to exactly the same streams. -/
theorem c7_log_stream_reference :
    ∀ (wf : String → String → Except String Unit) (g p : String) (tasks : List Task),
    ((spawnWatchers g p tasks).map logWatcher.logStreamName =
      (allPairs tasks).map (fun tc => logStreamName p tc.2 tc.1))
    ∧ ((finalizeTasks wf g p tasks).2 = none →
      ((finalizeTasks wf g p tasks).1).map Prod.fst =
        (allPairs tasks).map (fun tc => logStreamName p tc.2 tc.1))
    ∧ (∀ (container : Container) (task : Task),
      logStreamName p container task =
        p ++ "/" ++ container.name ++ "/" ++ pathBase task.taskArn) :=
  fun wf g p tasks =>
    ⟨spawnWatchers_streams g p tasks, finalizeTasks_none_streams wf g p tasks,
     fun _ _ => rfl⟩

/-- Witness for C7: a one-task, one-container run whose finalizing pass
succeeds wrote its marker to the same stream the watcher reads. -/
theorem c7_log_stream_reference_witness :
    ((finalizeTasks (fun _ _ => .ok ()) "grp" "pfx"
        [⟨"arn:/task/t1", [⟨"web", "arn:/container/c1", "STOPPED", some 0, ""⟩]⟩]).1).map
        Prod.fst =
      (allPairs [⟨"arn:/task/t1", [⟨"web", "arn:/container/c1", "STOPPED", some 0, ""⟩]⟩]).map
        (fun tc => logStreamName "pfx" tc.2 tc.1) :=
  (c7_log_stream_reference (fun _ _ => .ok ()) "grp" "pfx"
    [⟨"arn:/task/t1", [⟨"web", "arn:/container/c1", "STOPPED", some 0, ""⟩]⟩]).2.1 rfl


/-! ### Helper lemmas about the sentinel predicate -/

lemma char_isPrefixOf_iff (p l : List Char) : p.isPrefixOf l = true ↔ ∃ t, p ++ t = l := by
  rw [List.isPrefixOf_iff_prefix]
  exact Iff.rfl

lemma printer_cases (cid msg : String) :
    ((printer cid msg).1 = false ↔
      ∃ rest, msg = "Container " ++ cid ++ " exited with" ++ rest)
    ∧ (∀ rest, msg = "Container " ++ cid ++ " exited with" ++ rest →
      printer cid msg = (false, none))
    ∧ ((printer cid msg).1 = true → printer cid msg = (true, some msg)) := by
  have hpfx : ∀ rest : String, ("Container " ++ cid ++ " exited with").toList.isPrefixOf
      ("Container " ++ cid ++ " exited with" ++ rest).toList = true := by
    intro rest
    rw [char_isPrefixOf_iff]
    exact ⟨rest.toList, (string_toList_append _ rest).symm⟩
  cases hp : ("Container " ++ cid ++ " exited with").toList.isPrefixOf msg.toList with
  | true =>
    have hpr : printer cid msg = (false, none) := by
      simp only [printer]
      rw [hp]
      simp
    refine ⟨?_, fun rest _ => hpr, ?_⟩
    · rw [hpr]
      simp only [true_iff]
      obtain ⟨t, ht⟩ := (char_isPrefixOf_iff _ _).mp hp
      refine ⟨String.mk t, ?_⟩
      apply string_toList_inj
      rw [string_toList_append, toList_mk]
      exact ht.symm
    · intro h1
      rw [hpr] at h1
      simp at h1
  | false =>
    have hpr : printer cid msg = (true, some msg) := by
      simp only [printer]
      rw [hp]
      simp
    have hnot : ¬ ∃ rest, msg = "Container " ++ cid ++ " exited with" ++ rest := by
      rintro ⟨rest, hrest⟩
      rw [hrest] at hp
      rw [hpfx rest] at hp
      simp at hp
    refine ⟨?_, ?_, fun _ => hpr⟩
    · rw [hpr]
      simp only [Bool.true_eq_false, false_iff]
      exact hnot
    · intro rest hrest
      exact absurd ⟨rest, hrest⟩ hnot

lemma spawnWatchers_ids (g p : String) (tasks : List Task) :
    (spawnWatchers g p tasks).map logWatcher.containerId =
      (allPairs tasks).map (fun tc => pathBase tc.2.containerArn) := by
  simp [spawnWatchers, allPairs, List.map_flatMap, List.map_map]
  rfl

/-! ### Claim C2: the tailer sentinel predicate -/

/-- C2: the `Printer` bound to a container (whose captured id is the
trailing path segment of the container ARN, as recorded in the spawned
watcher) returns `false` exactly for messages that begin with the literal
prefix `"Container <shortContainerId> exited with"`; such a sentinel message
is not printed, and every other message is printed with the predicate
returning `true`. -/
theorem c2_printer_sentinel :
    ∀ (container : Container) (msg : String),
    (((printer (pathBase container.containerArn) msg).1 = false) ↔
      (∃ rest : String,
        msg = "Container " ++ pathBase container.containerArn ++ " exited with" ++ rest))
    ∧ (∀ rest : String,
      msg = "Container " ++ pathBase container.containerArn ++ " exited with" ++ rest →
      printer (pathBase container.containerArn) msg = (false, none))
    ∧ ((printer (pathBase container.containerArn) msg).1 = true →
      printer (pathBase container.containerArn) msg = (true, some msg))
    ∧ (∀ (g p : String) (tasks : List Task),
      (spawnWatchers g p tasks).map logWatcher.containerId =
        (allPairs tasks).map (fun tc => pathBase tc.2.containerArn)) :=
  fun container msg =>
    ⟨(printer_cases (pathBase container.containerArn) msg).1,
     (printer_cases (pathBase container.containerArn) msg).2.1,
     (printer_cases (pathBase container.containerArn) msg).2.2,
     fun g p tasks => spawnWatchers_ids g p tasks⟩

/-- Witness for C2: the sentinel written for container ARN
`arn:/container/c1` stops the watcher and is not printed. -/
theorem c2_printer_sentinel_witness :
    printer (pathBase "arn:/container/c1")
        ("Container " ++ pathBase "arn:/container/c1" ++ " exited with" ++ " 0") =
      (false, none) :=
  (c2_printer_sentinel ⟨"web", "arn:/container/c1", "STOPPED", some 0, ""⟩
    ("Container " ++ pathBase "arn:/container/c1" ++ " exited with" ++ " 0")).2.1 " 0" rfl

/-! ### Helper lemmas about the run-tail trace -/

lemma not_mem_marker_map (ws : List (String × String)) :
    TailEvent.joinWait ∉ ws.map (fun q => TailEvent.markerWrite q.1 q.2)
    ∧ TailEvent.aggregation ∉ ws.map (fun q => TailEvent.markerWrite q.1 q.2) := by
  constructor <;> · intro h; simp [List.mem_map] at h

lemma append_cons_eq_of_not_mem {α : Type} (x : α) :
    ∀ (pre M R post : List α), x ∉ M → x ∉ R →
    M ++ x :: R = pre ++ x :: post → pre = M ∧ post = R := by
  intro pre
  induction pre with
  | nil =>
    intro M R post hM hR h
    rw [List.nil_append] at h
    cases M with
    | nil =>
      rw [List.nil_append] at h
      injection h with h1 h2
      exact ⟨rfl, h2.symm⟩
    | cons m M' =>
      rw [List.cons_append] at h
      injection h with h1 h2
      subst h1
      exact absurd (List.mem_cons_self _ _) hM
  | cons q pre' ih =>
    intro M R post hM hR h
    rw [List.cons_append] at h
    cases M with
    | nil =>
      rw [List.nil_append] at h
      injection h with h1 h2
      refine absurd ?_ hR
      rw [h2]
      exact List.mem_append_right _ (List.mem_cons_self _ _)
    | cons m M' =>
      rw [List.cons_append] at h
      injection h with h1 h2
      obtain ⟨hpre, hpost⟩ :=
        ih M' R post (fun hx => hM (List.mem_cons_of_mem m hx)) hR h2
      exact ⟨by rw [← h1, hpre], hpost⟩

lemma runTail_trace (wf : String → String → Except String Unit) (g p : String)
    (tasks : List Task) :
    (runTail wf g p tasks).1 =
      ((finalizeTasks wf g p tasks).1).map (fun q => TailEvent.markerWrite q.1 q.2) ++
      (match (finalizeTasks wf g p tasks).2 with
       | some _ => []
       | none => [TailEvent.joinWait, TailEvent.aggregation]) := by
  cases hf : finalizeTasks wf g p tasks with
  | mk writes ferr =>
    cases ferr with
    | some e => simp [runTail, hf]
    | none =>
      rcases hagg : aggregateTasks tasks with _ | (_ | e) <;> simp [runTail, hf, hagg]

/-! ### Claim C8: phase ordering of the run tail -/

/-- C8: in the trace of the tail of `Run`, every finish-marker write
strictly precedes the join on the tailers (no marker event after `joinWait`)
and the join strictly precedes exit-code aggregation (`aggregation` comes
after `joinWait` and nothing writes after `aggregation`); and a finish-marker
failure makes `Run` return that error with neither a join nor an aggregation
event in the trace. -/
theorem c8_phase_order :
    ∀ (wf : String → String → Except String Unit) (g p : String) (tasks : List Task),
    (∀ (pre post : List TailEvent),
      (runTail wf g p tasks).1 = pre ++ TailEvent.joinWait :: post →
      (∀ s m, TailEvent.markerWrite s m ∉ post) ∧ TailEvent.aggregation ∈ post)
    ∧ (∀ (pre post : List TailEvent),
      (runTail wf g p tasks).1 = pre ++ TailEvent.aggregation :: post →
      (∀ s m, TailEvent.markerWrite s m ∉ post) ∧ TailEvent.joinWait ∉ post)
    ∧ (∀ e, (finalizeTasks wf g p tasks).2 = some e →
      (runTail wf g p tasks).2 = RunOutcome.failure e
      ∧ TailEvent.joinWait ∉ (runTail wf g p tasks).1
      ∧ TailEvent.aggregation ∉ (runTail wf g p tasks).1) := by
  intro wf g p tasks
  have htr := runTail_trace wf g p tasks
  cases hf : finalizeTasks wf g p tasks with
  | mk writes ferr =>
    rw [hf] at htr
    cases ferr with
    | some e0 =>
      simp only [List.append_nil] at htr
      refine ⟨?_, ?_, ?_⟩
      · intro pre post h
        rw [htr] at h
        refine absurd ?_ (not_mem_marker_map writes).1
        rw [h]
        exact List.mem_append_right _ (List.mem_cons_self _ _)
      · intro pre post h
        rw [htr] at h
        refine absurd ?_ (not_mem_marker_map writes).2
        rw [h]
        exact List.mem_append_right _ (List.mem_cons_self _ _)
      · intro e he
        simp only [Option.some.injEq] at he
        subst he
        refine ⟨by simp [runTail, hf], ?_, ?_⟩
        · rw [htr]; exact (not_mem_marker_map writes).1
        · rw [htr]; exact (not_mem_marker_map writes).2
    | none =>
      refine ⟨?_, ?_, ?_⟩
      · intro pre post h
        rw [htr] at h
        obtain ⟨hpre, hpost⟩ := append_cons_eq_of_not_mem TailEvent.joinWait pre
          (writes.map (fun q => TailEvent.markerWrite q.1 q.2)) [TailEvent.aggregation] post
          (not_mem_marker_map writes).1 (by simp) h
        subst hpost
        exact ⟨fun s m => by simp, by simp⟩
      · intro pre post h
        rw [htr] at h
        have h' : (writes.map (fun q => TailEvent.markerWrite q.1 q.2) ++ [TailEvent.joinWait])
            ++ TailEvent.aggregation :: [] = pre ++ TailEvent.aggregation :: post := by
          rw [List.append_assoc]
          exact h
        have hnm : TailEvent.aggregation ∉
            writes.map (fun q => TailEvent.markerWrite q.1 q.2) ++ [TailEvent.joinWait] := by
          intro hx
          rcases List.mem_append.mp hx with hx | hx
          · exact (not_mem_marker_map writes).2 hx
          · simp at hx
        obtain ⟨hpre, hpost⟩ := append_cons_eq_of_not_mem TailEvent.aggregation pre
          (writes.map (fun q => TailEvent.markerWrite q.1 q.2) ++ [TailEvent.joinWait]) [] post
          hnm (by simp) h'
        subst hpost
        exact ⟨fun s m => by simp, by simp⟩
      · intro e he
        simp at he

/-- Witness for C8: a failing marker write aborts the run before the join:
the outcome is that failure and the trace contains neither a join nor an
aggregation event. -/
theorem c8_phase_order_witness :
    (runTail (fun _ _ => .error "boom") "grp" "pfx"
        [⟨"arn:/task/t1", [⟨"web", "arn:/c1", "STOPPED", some 0, ""⟩]⟩]).2 =
      RunOutcome.failure "boom"
    ∧ TailEvent.joinWait ∉ (runTail (fun _ _ => .error "boom") "grp" "pfx"
        [⟨"arn:/task/t1", [⟨"web", "arn:/c1", "STOPPED", some 0, ""⟩]⟩]).1
    ∧ TailEvent.aggregation ∉ (runTail (fun _ _ => .error "boom") "grp" "pfx"
        [⟨"arn:/task/t1", [⟨"web", "arn:/c1", "STOPPED", some 0, ""⟩]⟩]).1 :=
  (c8_phase_order (fun _ _ => .error "boom") "grp" "pfx"
    [⟨"arn:/task/t1", [⟨"web", "arn:/c1", "STOPPED", some 0, ""⟩]⟩]).2.2 "boom" rfl


end EcsRunTask
